import Mathlib

/-!
Verification of the `gw` (ghost writer) file-watching dispatch library.

The development shallowly embeds the state-based variant of the package
(the file defining `FileState`, `SetState`, `SetStates`, `Dispatch`,
`Watch`, `hasMatcher`, `hasIgnore`, `nextDirty`, `logEvent`), together
with the registration entry point `Match`, and proves the behavioural
properties claimed of it.

Modelling conventions:
- A compiled regular expression is modelled as its matching function
  `String → Bool`; the external `regexp` library's `Compile` is an
  abstract parameter `String → Except Err Pat` (Go's `regexp.Compile`
  either returns a compiled pattern or an error).  `MustCompile`'s
  panic is modelled by `Option`: `none` means the call panics and no
  value is ever returned to the caller.
- Go errors are opaque; they are modelled by `Err := Nat`.
- The package-global `states` map from path to `FileState` is modelled
  as an association list `Dirty` (a Go map holds at most one entry per
  key; insertion overwrites, deletion removes).  Go's unspecified map
  iteration order in `nextDirty` is modelled by an arbitrary choice
  function `pick : Dirty → Option (String × FileState)`, constrained in
  theorems only by the two facts every Go map range satisfies: a picked
  entry is a member, and `none` is answered only on the empty map.
- The pluggable `Log` callback is modelled observationally: the
  `Tracker` carries the trace of `Log` invocations and `SetState`
  appends to it exactly where the Go code calls `Log(path, state)`.
- Handlers are arbitrary functions that may read and mutate the
  tracker (modelling re-entrant `SetState` / `SetStates` calls) and
  may return an error.
- `filepath.Walk` is modelled by an explicit list of visited entries,
  each carrying the `err` argument Go passes to the walk function.
- `Dispatch`'s unbounded loop is modelled with fuel; exhausting the
  fuel (`DispatchOut.spin`) models non-termination, never a result the
  Go function returns.  `dispatch` additionally returns the trace of
  handler invocations `(matcher index, path, state)` — precisely the
  calls `m.f(path, state)` the Go loop performs, in order.
-/

namespace Gw

/-- File states, from the source: `Clean`, `Changed`, `Deleted`. -/
inductive FileState
  | Clean
  | Changed
  | Deleted
deriving DecidableEq, Repr

/-- Opaque Go errors. -/
abbrev Err := Nat

/-- A compiled pattern, modelled by its matching function. -/
abbrev Pat := String → Bool

/-- The `states` map from path to pending state, as an association list. -/
abbrev Dirty := List (String × FileState)

/-- The handler-visible mutable package state: the dirty-`states` map and
the trace of `Log` invocations. -/
structure Tracker where
  states : Dirty
  log : List (String × FileState)
deriving DecidableEq, Repr

/-- A user handler `func(string, FileState) error`; it may mutate the
tracker (re-entrant `SetState`/`SetStates` calls) and return an error. -/
abbrev HandlerF := String → FileState → Tracker → Tracker × Option Err

/-- A registered match rule, from the source `matcher` struct. -/
structure Matcher where
  pattern : Pat
  f : HandlerF

/-- The handler patterns of a matcher list (what `hasMatcher` consults). -/
def patsOf (ms : List Matcher) : List Pat := ms.map Matcher.pattern

/-- Source `hasMatcher`: does some registered handler pattern match? -/
def hasMatcher (pats : List Pat) (path : String) : Bool :=
  pats.any (fun r => r path)

/-- Source `hasIgnore`: does some registered ignore pattern match? -/
def hasIgnore (igs : List Pat) (path : String) : Bool :=
  igs.any (fun r => r path)

/-- Go `delete(states, path)` on the association list. -/
def eraseKey (l : Dirty) (k : String) : Dirty :=
  l.filter (fun e => !(e.1 == k))

/-- Go `states[path] = state`: overwrite the key or append it. -/
def insertKey : Dirty → String → FileState → Dirty
  | [], k, v => [(k, v)]
  | e :: rest, k, v =>
      if e.1 == k then (k, v) :: rest else e :: insertKey rest k v

/-- Source `SetState`: drop the update when no handler pattern matches;
otherwise delete the key on `Clean`, insert/overwrite it otherwise, and
call `Log(path, state)`. -/
def SetState (pats : List Pat) (path : String) (state : FileState)
    (t : Tracker) : Tracker :=
  if !hasMatcher pats path then t
  else
    { states :=
        if state = FileState.Clean then eraseKey t.states path
        else insertKey t.states path state,
      log := t.log ++ [(path, state)] }

/-- One entry seen by `filepath.Walk`: the path and the `err` argument
passed to the walk function for it. -/
abbrev WalkEntry := String × Option Err

/-- The walk body of source `SetStates`: abort on a traversal error,
skip paths that do not match or are ignored, call `SetState` otherwise. -/
def walkSetStates (pats igs : List Pat) (r : Pat) (state : FileState) :
    List WalkEntry → Tracker → Tracker × Option Err
  | [], t => (t, none)
  | (_, some e) :: _, t => (t, some e)
  | (path, none) :: rest, t =>
      if !(r path) || hasIgnore igs path then
        walkSetStates pats igs r state rest t
      else
        walkSetStates pats igs r state rest (SetState pats path state t)

/-- Source `SetStates`: compile the pattern (returning the compile error
on failure), then walk the tree applying `SetState` to matching,
non-ignored paths. -/
def SetStates (pats igs : List Pat) (compile : String → Except Err Pat)
    (tree : List WalkEntry) (pattern : String) (state : FileState)
    (t : Tracker) : Tracker × Option Err :=
  match compile pattern with
  | Except.error e => (t, some e)
  | Except.ok r => walkSetStates pats igs r state tree t

/-- Source `Match`: registration via `regexp.MustCompile`.  An invalid
pattern makes `MustCompile` panic — modelled by `none`, meaning the call
never returns to the caller (so no matcher is appended); on success the
new rule is appended to the registry. -/
def Match (compile : String → Except Err Pat) (pattern : String)
    (f : HandlerF) (ms : List Matcher) : Option (List Matcher) :=
  match compile pattern with
  | Except.error _ => none
  | Except.ok r => some (ms ++ [⟨r, f⟩])

/-- Source `Ignore`: same `MustCompile` contract, appends to `ignores`. -/
def Ignore (compile : String → Except Err Pat) (pattern : String)
    (igs : List Pat) : Option (List Pat) :=
  match compile pattern with
  | Except.error _ => none
  | Except.ok r => some (igs ++ [r])

/-- One handler invocation record: matcher index (registration order),
path, state. -/
abbrev Inv := Nat × String × FileState

/-- The inner loop of source `Dispatch`: try the matchers in
registration order; for each whose pattern matches, call its handler and
stop at the first error.  Also returns the trace of invocations made. -/
def runHandlers : List (Nat × Matcher) → String → FileState → Tracker →
    Tracker × List Inv × Option Err
  | [], _, _, t => (t, [], none)
  | (i, m) :: rest, path, st, t =>
      if m.pattern path then
        match m.f path st t with
        | (t1, some e) => (t1, [(i, path, st)], some e)
        | (t1, none) =>
            match runHandlers rest path st t1 with
            | (t2, tr, res) => (t2, (i, path, st) :: tr, res)
      else runHandlers rest path st t

/-- Outcome of a `Dispatch` run: normal return (`ok`), a handler error
(`fail`), or fuel exhaustion modelling non-termination (`spin`). -/
inductive DispatchOut
  | ok
  | fail (e : Err)
  | spin
deriving DecidableEq, Repr

/-- Source `Dispatch`: loop; `nextDirty` (the `pick` choice function on
the map) returns an arbitrary entry or reports empty; the picked path is
first reset to `Clean` via `SetState`, then every matching handler runs
in registration order; a handler error is returned immediately. -/
def dispatch (ms : List Matcher) (pick : Dirty → Option (String × FileState)) :
    Nat → Tracker → Tracker × List Inv × DispatchOut
  | 0, t => (t, [], DispatchOut.spin)
  | fuel + 1, t =>
      match pick t.states with
      | none => (t, [], DispatchOut.ok)
      | some (path, st) =>
          match runHandlers ms.enum path st
              (SetState (patsOf ms) path FileState.Clean t) with
          | (t2, tr, some e) => (t2, tr, DispatchOut.fail e)
          | (t2, tr, none) =>
              match dispatch ms pick fuel t2 with
              | (t3, tr2, out) => (t3, tr ++ tr2, out)

/-- The full block of invocations `Dispatch` owes a path: every matching
matcher, in registration order. -/
def matchBlock (ms : List Matcher) (path : String) (st : FileState) :
    List Inv :=
  (ms.enum.filter (fun im => im.2.pattern path)).map
    (fun im => (im.1, path, st))

/-- One entry seen by the `filepath.Walk` of `watchRecursive`: path, the
`err` argument, and whether the entry is a directory. -/
abbrev WalkDirEntry := String × Option Err × Bool

/-- Source `watchRecursive`: walk the directory; abort on a traversal
error; skip non-directories and ignored paths; mark each kept directory
`Clean` via `SetState` and subscribe it (`w.Add`, whose error aborts the
walk).  `add` models `fsnotify.Watcher.Add`. -/
def watchRecursive (pats igs : List Pat) (add : String → Option Err) :
    List WalkDirEntry → Tracker → Tracker × Option Err
  | [], t => (t, none)
  | (_, some e, _) :: _, t => (t, some e)
  | (path, none, isDir) :: rest, t =>
      if !isDir || hasIgnore igs path then
        watchRecursive pats igs add rest t
      else
        let t1 := SetState pats path FileState.Clean t
        match add path with
        | some e => (t1, some e)
        | none => watchRecursive pats igs add rest t1

/-- One resolution of the `select` in the `Watch` loop: the 250ms timer
fired, a filesystem event arrived (name plus the `Create` / `Remove`
bits of `e.Op`), or the watcher error channel delivered an error. -/
inductive WEvent
  | tick
  | fsEvent (name : String) (isCreate isRemove : Bool)
  | fsError (e : Err)

/-- The create-branch of the `Watch` event case: on a `Create` event,
`os.Stat` the path (returning its error), and if it is a directory,
`watchRecursive` into it (returning its error).  `stat` models
`os.Stat`, reporting `IsDir` or an error; `subtree` models the walk
listing of the created directory. -/
def createPhase (pats igs : List Pat) (stat : String → Except Err Bool)
    (add : String → Option Err) (subtree : String → List WalkDirEntry)
    (name : String) (isCreate : Bool) (t : Tracker) :
    Except (Tracker × Err) Tracker :=
  if isCreate then
    match stat name with
    | Except.error e => Except.error (t, e)
    | Except.ok isDir =>
        if isDir then
          match watchRecursive pats igs add (subtree name) t with
          | (t1, some e) => Except.error (t1, e)
          | (t1, none) => Except.ok t1
        else Except.ok t
  else Except.ok t

/-- One iteration of the source `Watch` select loop.  `none` means the
loop continues; `some e` means `Watch` returns `e`.  On a tick the
result of `Dispatch()` is discarded, exactly as in the source. -/
def watchStep (ms : List Matcher) (igs : List Pat)
    (pick : Dirty → Option (String × FileState)) (dfuel : Nat)
    (stat : String → Except Err Bool) (add : String → Option Err)
    (subtree : String → List WalkDirEntry) :
    WEvent → Tracker → Tracker × Option Err
  | WEvent.tick, t => ((dispatch ms pick dfuel t).1, none)
  | WEvent.fsEvent name isCreate isRemove, t =>
      if hasIgnore igs name then (t, none)
      else
        match createPhase (patsOf ms) igs stat add subtree name isCreate t with
        | Except.error (t1, e) => (t1, some e)
        | Except.ok t1 =>
            if isRemove then
              (SetState (patsOf ms) name FileState.Deleted t1, none)
            else
              (SetState (patsOf ms) name FileState.Changed t1, none)
  | WEvent.fsError e, t => (t, some e)

/-- The source `Watch` loop over a finite schedule of select
resolutions; `none` means the loop was still running when the schedule
ran out. -/
def watchLoop (ms : List Matcher) (igs : List Pat)
    (pick : Dirty → Option (String × FileState)) (dfuel : Nat)
    (stat : String → Except Err Bool) (add : String → Option Err)
    (subtree : String → List WalkDirEntry) :
    List WEvent → Tracker → Tracker × Option Err
  | [], t => (t, none)
  | ev :: rest, t =>
      match watchStep ms igs pick dfuel stat add subtree ev t with
      | (t1, some e) => (t1, some e)
      | (t1, none) => watchLoop ms igs pick dfuel stat add subtree rest t1

/-- Source `Watch`: create the watcher (whose failure is returned),
`watchRecursive` the root (whose failure is returned), then run the
select loop. -/
def Watch (newWatcherErr : Option Err) (ms : List Matcher)
    (igs : List Pat) (pick : Dirty → Option (String × FileState))
    (dfuel : Nat) (stat : String → Except Err Bool)
    (add : String → Option Err) (subtree : String → List WalkDirEntry)
    (rootTree : List WalkDirEntry) (events : List WEvent) (t : Tracker) :
    Tracker × Option Err :=
  match newWatcherErr with
  | some e => (t, some e)
  | none =>
      match watchRecursive (patsOf ms) igs add rootTree t with
      | (t1, some e) => (t1, some e)
      | (t1, none) => watchLoop ms igs pick dfuel stat add subtree events t1

/-! Concrete instances used by the scenario theorems and witnesses. -/

/-- Literal-path pattern (the compiled form of an anchored literal
regular expression such as `^a$`). -/
def litPat (s : String) : Pat := fun p => p == s

/-- A handler that succeeds without touching the tracker. -/
def hNoop : HandlerF := fun _ _ t => (t, none)

/-- A handler that fails with error `e`. -/
def hFail (e : Err) : HandlerF := fun _ _ t => (t, some e)

/-- Concrete model of `regexp.Compile` for the examples: Go's regexp
package rejects the pattern consisting of a lone opening parenthesis;
other patterns compile to anchored-literal matchers. -/
def compileEx : String → Except Err Pat :=
  fun p => if p == "(" then Except.error 0 else Except.ok (litPat p)

/-- Registered handler patterns of the re-entrancy scenario. -/
def patsC5 : List Pat := [litPat "a", litPat "b"]

/-- Tree walked by `SetStates` in the re-entrancy scenario. -/
def treeC5 : List WalkEntry := [("a", none), ("b", none)]

/-- Handler for pattern `a` in the re-entrancy scenario: during
dispatch it calls `SetStates("b", Changed)`, as the template handler in
the package documentation does. -/
def hDirtyB : HandlerF :=
  fun _ _ t => SetStates patsC5 [] compileEx treeC5 "b" FileState.Changed t

/-- Registry of the re-entrancy scenario: the `a`-handler dirties `b`,
the `b`-handler is inert. -/
def msC5 : List Matcher := [⟨litPat "a", hDirtyB⟩, ⟨litPat "b", hNoop⟩]

/-- Initial tracker of the re-entrancy scenario: only `a` is dirty. -/
def t0C5 : Tracker := ⟨[("a", FileState.Changed)], []⟩

/-- Registry with two handlers both matching `a`. -/
def msW1 : List Matcher := [⟨litPat "a", hNoop⟩, ⟨litPat "a", hNoop⟩]

/-- Tracker with the single dirty path `a`. -/
def tW1 : Tracker := ⟨[("a", FileState.Changed)], []⟩

/-- Registry whose first `a`-handler fails with error 5, with a second
`a`-handler and a `b`-handler behind it. -/
def msW4 : List Matcher :=
  [⟨litPat "a", hFail 5⟩, ⟨litPat "a", hNoop⟩, ⟨litPat "b", hNoop⟩]

/-- Tracker with dirty paths `a` and `b`. -/
def tW4 : Tracker :=
  ⟨[("a", FileState.Changed), ("b", FileState.Changed)], []⟩

/-- Registry with a single inert `a`-handler. -/
def msW6 : List Matcher := [⟨litPat "a", hNoop⟩]

/-- Tracker with the single dirty path `a` (drain scenario). -/
def tW6 : Tracker := ⟨[("a", FileState.Changed)], []⟩

/-- Registry whose only handler (for `a`) fails with error 7. -/
def msC2 : List Matcher := [⟨litPat "a", hFail 7⟩]

/-- Tracker with the single dirty path `a` (watch scenario). -/
def tC2 : Tracker := ⟨[("a", FileState.Changed)], []⟩

/-- `os.Stat` model: every path exists and is a plain file. -/
def statOkFile : String → Except Err Bool := fun _ => Except.ok false

/-- `fsnotify.Watcher.Add` model: subscription always succeeds. -/
def addOk : String → Option Err := fun _ => none

/-- Subtree listing model: created directories are empty. -/
def subEmpty : String → List WalkDirEntry := fun _ => []

/-- Concrete compile model whose patterns match every path (the
compiled form of the pattern used as a match-everything trigger). -/
def compileAll : String → Except Err Pat := fun _ => Except.ok (fun _ => true)

/-- Ignore patterns of the ignore-filter scenario: `x` is ignored. -/
def igsW3 : List Pat := [litPat "x"]

/-- Handler patterns of the ignore-filter scenario: both `x` and `y`
have handlers. -/
def patsW3 : List Pat := [litPat "x", litPat "y"]

/-- Tree walked in the ignore-filter scenario. -/
def treeW3 : List WalkEntry := [("x", none), ("y", none)]

/-! Helper lemmas. -/

/-- An entry of `insertKey l k v` has a key of `l` or the key `k`. -/
theorem insertKey_mem (k : String) (v : FileState) :
    ∀ (l : Dirty) (q : String) (x : FileState), (q, x) ∈ insertKey l k v →
      (∃ y, (q, y) ∈ l) ∨ q = k := by
  intro l
  induction l with
  | nil =>
      intro q x h
      simp [insertKey] at h
      exact Or.inr h.1
  | cons e rest ih =>
      intro q x h
      simp only [insertKey] at h
      by_cases he : (e.1 == k) = true
      · rw [if_pos he] at h
        rcases List.mem_cons.mp h with h | h
        · exact Or.inr (congrArg Prod.fst h)
        · exact Or.inl ⟨x, List.mem_cons_of_mem e h⟩
      · rw [if_neg he] at h
        rcases List.mem_cons.mp h with h | h
        · refine Or.inl ⟨e.2, ?_⟩
          have hq : q = e.1 := congrArg Prod.fst h
          rw [hq]
          exact List.mem_cons_self e rest
        · rcases ih q x h with ⟨y, hy⟩ | h2
          · exact Or.inl ⟨y, List.mem_cons_of_mem e hy⟩
          · exact Or.inr h2

/-- An entry of `eraseKey l k` is an entry of `l`. -/
theorem eraseKey_mem (l : Dirty) (k : String) (e : String × FileState)
    (h : e ∈ eraseKey l k) : e ∈ l :=
  List.mem_of_mem_filter h

/-- Erasing a present key strictly shrinks the list. -/
theorem eraseKey_length_lt (p : String) :
    ∀ (l : Dirty) (x : FileState), (p, x) ∈ l →
      (eraseKey l p).length < l.length := by
  intro l
  induction l with
  | nil => intro x h; cases h
  | cons e rest ih =>
      intro x h
      cases hek : (e.1 == p) with
      | true =>
          simp only [eraseKey, List.filter_cons, hek, Bool.not_true]
          rw [if_neg (by decide)]
          simp only [List.length_cons]
          exact Nat.lt_succ_of_le
            (List.length_filter_le (fun e => !(e.1 == p)) rest)
      | false =>
          rcases List.mem_cons.mp h with h | h
          · exfalso
            rw [← h] at hek
            simp at hek
          · simp only [eraseKey, List.filter_cons, hek, Bool.not_false,
              if_true]
            simp only [List.length_cons]
            exact Nat.succ_lt_succ (ih x h)

/-- Every entry of the tracker after `SetState` has a key that was
already present or is the path just set. -/
theorem setState_mem (pats : List Pat) (p : String) (st : FileState)
    (t : Tracker) (q : String) (x : FileState)
    (h : (q, x) ∈ (SetState pats p st t).states) :
    (∃ y, (q, y) ∈ t.states) ∨ q = p := by
  unfold SetState at h
  cases hm : hasMatcher pats p with
  | false =>
      rw [hm] at h
      simp only [Bool.not_false, if_pos rfl] at h
      exact Or.inl ⟨x, h⟩
  | true =>
      rw [hm] at h
      simp only [Bool.not_true] at h
      rw [if_neg (by decide)] at h
      by_cases hc : st = FileState.Clean
      · rw [if_pos hc] at h
        exact Or.inl ⟨x, eraseKey_mem _ _ _ h⟩
      · rw [if_neg hc] at h
        exact insertKey_mem p st t.states q x h

/-- `List.head?` answers `none` only on the empty list. -/
theorem headq_none (l : Dirty) (h : l.head? = none) : l = [] := by
  cases l with
  | nil => rfl
  | cons a as => simp [List.head?] at h

/-- A `List.head?` answer is a member of the list. -/
theorem headq_mem (l : Dirty) (e : String × FileState)
    (h : l.head? = some e) : e ∈ l := by
  cases l with
  | nil => simp [List.head?] at h
  | cons a as =>
      simp [List.head?] at h
      exact h ▸ List.mem_cons_self a as

/-- The payload of an `enumFrom` member is a member of the list. -/
theorem mem_of_mem_enumFrom {α : Type} :
    ∀ (l : List α) (n i : Nat) (a : α), (i, a) ∈ l.enumFrom n → a ∈ l := by
  intro l
  induction l with
  | nil => intro n i a h; simp [List.enumFrom] at h
  | cons x xs ih =>
      intro n i a h
      simp only [List.enumFrom, List.mem_cons] at h
      rcases h with h | h
      · have ha : a = x := congrArg Prod.snd h
        rw [ha]
        exact List.mem_cons_self x xs
      · exact List.mem_cons_of_mem _ (ih (n + 1) i a h)

/-- The payload of an `enum` member is a member of the list. -/
theorem mem_of_mem_enum {α : Type} (l : List α) (i : Nat) (a : α)
    (h : (i, a) ∈ l.enum) : a ∈ l :=
  mem_of_mem_enumFrom l 0 i a h

/-- The walk of `SetStates` never records state for a path matching an
ignore pattern: the walk body checks `hasIgnore` before `SetState`. -/
theorem walkSetStates_no_ignored (pats igs : List Pat) (r : Pat)
    (st : FileState) (p : String) (hig : hasIgnore igs p = true) :
    ∀ (tree : List WalkEntry) (t : Tracker), (∀ y, (p, y) ∉ t.states) →
      ∀ y, (p, y) ∉ (walkSetStates pats igs r st tree t).1.states := by
  intro tree
  induction tree with
  | nil => intro t habs; exact habs
  | cons e rest ih =>
      rcases e with ⟨path, oe⟩
      cases oe with
      | some err => intro t habs; exact habs
      | none =>
          intro t habs
          simp only [walkSetStates]
          cases hskip : (!(r path) || hasIgnore igs path) with
          | true =>
              rw [if_pos rfl]
              exact ih t habs
          | false =>
              rw [if_neg (by decide)]
              apply ih
              intro y hy
              rcases setState_mem pats path st t p y hy with ⟨z, hz⟩ | hpq
              · exact habs z hz
              · simp only [Bool.or_eq_false_iff] at hskip
                rw [hpq] at hig
                rw [hskip.2] at hig
                cases hig

/-- When no handler errors, the trace of `runHandlers` is exactly the
matching entries, in registration order. -/
theorem runHandlers_none_trace (p : String) (st : FileState) :
    ∀ (E : List (Nat × Matcher)) (t t' : Tracker) (tr : List Inv),
      runHandlers E p st t = (t', tr, none) →
      tr = (E.filter (fun im => im.2.pattern p)).map
        (fun im => (im.1, p, st)) := by
  intro E
  induction E with
  | nil =>
      intro t t' tr h
      simp only [runHandlers, Prod.mk.injEq] at h
      simp [← h.2.1]
  | cons im rest ih =>
      rcases im with ⟨i, m⟩
      intro t t' tr h
      simp only [runHandlers] at h
      cases hm : m.pattern p with
      | false =>
          rw [hm] at h
          rw [if_neg (by decide)] at h
          rw [List.filter_cons, if_neg (by simp [hm])]
          exact ih t t' tr h
      | true =>
          rw [hm] at h
          rw [if_pos rfl] at h
          rcases hf : m.f p st t with ⟨t1, oe⟩
          rw [hf] at h
          cases oe with
          | some e => simp at h
          | none =>
              simp only [Prod.mk.injEq] at h
              rcases hr : runHandlers rest p st t1 with ⟨t2, tr2, res⟩
              rw [hr] at h
              have hres : res = none := h.2.2
              have htr : (i, p, st) :: tr2 = tr := h.2.1
              rw [hres] at hr
              have htr2 := ih t1 t2 tr2 hr
              rw [List.filter_cons, if_pos (by simp [hm])]
              simp only [List.map_cons]
              rw [← htr, htr2]
  -- end of runHandlers_none_trace

/-! Claim theorems. -/

/-- C3 counterexample: `SetState` does not consult the ignore patterns.
With `x` both ignored (`igs = [litPat "x"]` in the registry) and matched
by a handler pattern, `SetState("x", Changed)` inserts `x` into the
dirty set, contradicting the claim that ignored paths are never
inserted by `SetState`. -/
theorem setState_inserts_ignored_path_cex :
    hasIgnore [litPat "x"] "x" = true ∧
      hasMatcher [litPat "x"] "x" = true ∧
      (SetState [litPat "x"] "x" FileState.Changed ⟨[], []⟩).states =
        [("x", FileState.Changed)] :=
  ⟨rfl, rfl, rfl⟩

/-- C3 (amended): the ignore filter lives in the `SetStates` walk, not
in `SetState`.  For every path matching an ignore pattern and not
already dirty, `SetStates` never inserts it, whatever the trigger
pattern, state, registry or tree. -/
theorem setStates_never_inserts_ignored (pats igs : List Pat)
    (compile : String → Except Err Pat) (tree : List WalkEntry)
    (pattern : String) (st : FileState) (t : Tracker) (p : String)
    (hig : hasIgnore igs p = true) (habs : ∀ y, (p, y) ∉ t.states) :
    ∀ y, (p, y) ∉ (SetStates pats igs compile tree pattern st t).1.states := by
  unfold SetStates
  cases hc : compile pattern with
  | error e => exact habs
  | ok r => exact walkSetStates_no_ignored pats igs r st p hig tree t habs

/-- C3 witness: in a concrete registry ignoring `x`, a match-everything
`SetStates(Changed)` over a tree containing `x` leaves `x` out of the
dirty set. -/
theorem setStates_never_inserts_ignored_witness :
    hasIgnore igsW3 "x" = true ∧
      ∀ y, ("x", y) ∉
        (SetStates patsW3 igsW3 compileAll treeW3 "any" FileState.Changed
          ⟨[], []⟩).1.states :=
  ⟨rfl, setStates_never_inserts_ignored patsW3 igsW3 compileAll treeW3 "any"
    FileState.Changed ⟨[], []⟩ "x" rfl (fun y => List.not_mem_nil (("x", y)))⟩

/-- C5: re-entrant dirtying scenario.  The registry has a handler for
`a` that calls `SetStates("b", Changed)` during dispatch and an inert
handler for `b`.  Starting from a dirty set containing only `a`, one
`Dispatch` call invokes the `a`-handler and then the `b`-handler —
invocation `(1, "b", Changed)` appears in the trace of the same call,
which returns `ok` with the dirty set drained. -/
theorem dispatch_reentrant_scenario :
    dispatch msC5 List.head? 3 t0C5 =
      (⟨[], [("a", FileState.Clean), ("b", FileState.Changed),
            ("b", FileState.Clean)]⟩,
        [(0, "a", FileState.Changed), (1, "b", FileState.Changed)],
        DispatchOut.ok) := rfl

/-- C7: in the registry-gated variant, `SetState` on a path matching no
handler pattern leaves the whole tracker (dirty set and log) unchanged:
the update is silently dropped. -/
theorem setState_unmatched_noop (pats : List Pat) (p : String)
    (st : FileState) (t : Tracker) (h : hasMatcher pats p = false) :
    SetState pats p st t = t := by
  unfold SetState
  rw [h]
  simp

/-- C7 witness: with only an `a`-handler registered, `SetState("x",
Changed)` is a no-op. -/
theorem setState_unmatched_noop_witness :
    hasMatcher [litPat "a"] "x" = false ∧
      SetState [litPat "a"] "x" FileState.Changed
          ⟨[("y", FileState.Changed)], []⟩ =
        ⟨[("y", FileState.Changed)], []⟩ :=
  ⟨rfl, setState_unmatched_noop [litPat "a"] "x" FileState.Changed
    ⟨[("y", FileState.Changed)], []⟩ rfl⟩

/-- C8 counterexample: `SetState` returns before calling `Log` when no
handler pattern matches the path, so not every `SetState` call emits an
observability event — here `SetState("x", Changed)` leaves the log
empty. -/
theorem setState_unmatched_no_log_cex :
    hasMatcher [litPat "a"] "x" = false ∧
      (SetState [litPat "a"] "x" FileState.Changed ⟨[], []⟩).log = [] :=
  ⟨rfl, rfl⟩

/-- C8 (amended): `SetState` emits a `Log` event exactly when the path
matches some handler pattern; for matched paths every call logs `(path,
state)`, including the no-op `Clean`-of-absent case, and for unmatched
paths nothing is logged. -/
theorem setState_log_iff_matched (pats : List Pat) (p : String)
    (st : FileState) (t : Tracker) :
    (SetState pats p st t).log =
      if hasMatcher pats p then t.log ++ [(p, st)] else t.log := by
  unfold SetState
  cases hm : hasMatcher pats p with
  | false => simp
  | true => simp

/-- C9 counterexample: `Match` compiles its pattern with
`regexp.MustCompile`, so an invalid pattern (here a lone `(`, which
Go's regexp rejects) makes the call panic — modelled by `none`: no
`InvalidPatternError` value is ever returned to the caller. -/
theorem match_invalid_pattern_panics_cex :
    compileEx "(" = Except.error 0 ∧ Match compileEx "(" hNoop [] = none :=
  ⟨rfl, rfl⟩

/-- C9 (amended): when the pattern does not compile, `Match` panics
(`MustCompile`), returning no value at all; in particular the panic
happens before any rule is appended, so no `MatchRule` is added. -/
theorem match_invalid_pattern_panics (compile : String → Except Err Pat)
    (pattern : String) (f : HandlerF) (ms : List Matcher) (e : Err)
    (h : compile pattern = Except.error e) :
    Match compile pattern f ms = none := by
  unfold Match
  rw [h]

/-- C9 witness: registering the invalid pattern `(` on a non-empty
registry panics. -/
theorem match_invalid_pattern_panics_witness :
    compileEx "(" = Except.error 0 ∧
      Match compileEx "(" (hFail 3) [⟨litPat "a", hNoop⟩] = none :=
  ⟨rfl, match_invalid_pattern_panics compileEx "(" (hFail 3)
    [⟨litPat "a", hNoop⟩] 0 rfl⟩

/-- C1: every dirty path processed by a `Dispatch` run that returns
`nil` receives the full block of its matching handlers, in registration
order: the invocation trace of the run is a concatenation of complete
`matchBlock`s, one per processed path — never a first-match-only
subset. -/
theorem dispatch_invokes_all_matching (ms : List Matcher)
    (pick : Dirty → Option (String × FileState)) :
    ∀ (fuel : Nat) (t t' : Tracker) (tr : List Inv),
      dispatch ms pick fuel t = (t', tr, DispatchOut.ok) →
      ∃ ps : List (String × FileState),
        tr = (ps.map (fun q => matchBlock ms q.1 q.2)).flatten := by
  intro fuel
  induction fuel with
  | zero =>
      intro t t' tr h
      simp only [dispatch, Prod.mk.injEq] at h
      exact DispatchOut.noConfusion h.2.2
  | succ n ih =>
      intro t t' tr h
      simp only [dispatch] at h
      cases hp : pick t.states with
      | none =>
          rw [hp] at h
          simp only [Prod.mk.injEq] at h
          refine ⟨[], ?_⟩
          rw [← h.2.1]
          simp
      | some pr =>
          rcases pr with ⟨path, st⟩
          rw [hp] at h
          simp only [Prod.mk.injEq] at h
          rcases hr : runHandlers ms.enum path st
              (SetState (patsOf ms) path FileState.Clean t) with ⟨t2, trh, res⟩
          rw [hr] at h
          cases res with
          | some e =>
              simp only [Prod.mk.injEq] at h
              exact DispatchOut.noConfusion h.2.2
          | none =>
              simp only [Prod.mk.injEq] at h
              rcases hd : dispatch ms pick n t2 with ⟨t3, tr2, out⟩
              rw [hd] at h
              have hout : out = DispatchOut.ok := h.2.2
              have htr : trh ++ tr2 = tr := h.2.1
              rw [hout] at hd
              obtain ⟨ps, hps⟩ := ih t2 t3 tr2 hd
              have htrh := runHandlers_none_trace path st ms.enum _ _ _ hr
              refine ⟨(path, st) :: ps, ?_⟩
              rw [← htr, htrh, hps]
              simp [matchBlock]

/-- C1 witness: two handlers registered for `a`; dispatching a dirty
`a` invokes both, in order, and the trace decomposes into full match
blocks. -/
theorem dispatch_invokes_all_matching_witness :
    ∃ ps : List (String × FileState),
      [(0, "a", FileState.Changed), (1, "a", FileState.Changed)] =
        (ps.map (fun q => matchBlock msW1 q.1 q.2)).flatten :=
  dispatch_invokes_all_matching msW1 List.head? 2 tW1
    ⟨[], [("a", FileState.Clean)]⟩
    [(0, "a", FileState.Changed), (1, "a", FileState.Changed)] rfl

/-- Within `runHandlers`, a returned error comes from the last recorded
invocation: the trace ends at the failing handler and no invocation
follows it. -/
theorem runHandlers_err_last (p : String) (st : FileState) :
    ∀ (E : List (Nat × Matcher)) (t t' : Tracker) (tr : List Inv) (e : Err),
      runHandlers E p st t = (t', tr, some e) →
      ∃ pre i, tr = pre ++ [(i, p, st)] := by
  intro E
  induction E with
  | nil =>
      intro t t' tr e h
      simp only [runHandlers, Prod.mk.injEq] at h
      exact Option.noConfusion h.2.2
  | cons im rest ih =>
      rcases im with ⟨i, m⟩
      intro t t' tr e h
      simp only [runHandlers] at h
      cases hm : m.pattern p with
      | false =>
          rw [hm] at h
          rw [if_neg (by decide)] at h
          exact ih t t' tr e h
      | true =>
          rw [hm] at h
          rw [if_pos rfl] at h
          rcases hf : m.f p st t with ⟨t1, oe⟩
          rw [hf] at h
          cases oe with
          | some e2 =>
              simp only [Prod.mk.injEq] at h
              refine ⟨[], i, ?_⟩
              rw [← h.2.1]
              simp
          | none =>
              simp only [Prod.mk.injEq] at h
              rcases hr : runHandlers rest p st t1 with ⟨t2, tr2, res⟩
              rw [hr] at h
              have hres : res = some e := h.2.2
              have htr : (i, p, st) :: tr2 = tr := h.2.1
              rw [hres] at hr
              obtain ⟨pre, j, hj⟩ := ih t1 t2 tr2 e hr
              refine ⟨(i, p, st) :: pre, j, ?_⟩
              rw [← htr, hj]
              simp

/-- C4: fail-fast.  When the handler run for the picked dirty path
fails, `Dispatch` returns exactly that error with exactly the tracker
the failing handler left behind (so every entry still dirty at the
moment of failure stays in the dirty set for the next call), and the
invocation trace ends at the failing handler — no further handler is
invoked. -/
theorem dispatch_failfast (ms : List Matcher)
    (pick : Dirty → Option (String × FileState)) (fuel : Nat)
    (t t2 : Tracker) (path : String) (st : FileState) (tr : List Inv)
    (e : Err) (hpick : pick t.states = some (path, st))
    (hrun : runHandlers ms.enum path st
        (SetState (patsOf ms) path FileState.Clean t) = (t2, tr, some e)) :
    dispatch ms pick (fuel + 1) t = (t2, tr, DispatchOut.fail e) ∧
      ∃ pre i, tr = pre ++ [(i, path, st)] := by
  constructor
  · simp only [dispatch, hpick, hrun]
  · exact runHandlers_err_last path st ms.enum _ _ _ _ hrun

/-- C4 witness: the first of two `a`-handlers fails with error 5;
`Dispatch` returns error 5 at once, the second `a`-handler never runs,
and the still-dirty path `b` remains in the dirty set. -/
theorem dispatch_failfast_witness :
    dispatch msW4 List.head? 3 tW4 =
        (⟨[("b", FileState.Changed)], [("a", FileState.Clean)]⟩,
          [(0, "a", FileState.Changed)], DispatchOut.fail 5) ∧
      ∃ pre i,
        [(0, "a", FileState.Changed)] = pre ++ [(i, "a", FileState.Changed)] :=
  dispatch_failfast msW4 List.head? 2 tW4
    ⟨[("b", FileState.Changed)], [("a", FileState.Clean)]⟩ "a"
    FileState.Changed [(0, "a", FileState.Changed)] 5 rfl rfl

/-- C6: a `Dispatch` run that returns `nil` leaves the dirty set empty:
the loop only returns `nil` after `nextDirty` reports the map empty,
whatever entries the `SetState` history put there. -/
theorem dispatch_ok_drains (ms : List Matcher)
    (pick : Dirty → Option (String × FileState))
    (hnone : ∀ l : Dirty, pick l = none → l = []) :
    ∀ (fuel : Nat) (t t' : Tracker) (tr : List Inv),
      dispatch ms pick fuel t = (t', tr, DispatchOut.ok) → t'.states = [] := by
  intro fuel
  induction fuel with
  | zero =>
      intro t t' tr h
      simp only [dispatch, Prod.mk.injEq] at h
      exact DispatchOut.noConfusion h.2.2
  | succ n ih =>
      intro t t' tr h
      simp only [dispatch] at h
      cases hp : pick t.states with
      | none =>
          rw [hp] at h
          simp only [Prod.mk.injEq] at h
          rw [← h.1]
          exact hnone _ hp
      | some pr =>
          rcases pr with ⟨path, st⟩
          rw [hp] at h
          simp only [Prod.mk.injEq] at h
          rcases hr : runHandlers ms.enum path st
              (SetState (patsOf ms) path FileState.Clean t) with ⟨t2, trh, res⟩
          rw [hr] at h
          cases res with
          | some e =>
              simp only [Prod.mk.injEq] at h
              exact DispatchOut.noConfusion h.2.2
          | none =>
              simp only [Prod.mk.injEq] at h
              rcases hd : dispatch ms pick n t2 with ⟨t3, tr2, out⟩
              rw [hd] at h
              have hout : out = DispatchOut.ok := h.2.2
              have ht3 : t3 = t' := h.1
              rw [hout] at hd
              rw [← ht3]
              exact ih t2 t3 tr2 hd

/-- C6 witness: a concrete run over a dirty `a` returns `ok` and the
resulting dirty set is empty. -/
theorem dispatch_ok_drains_witness :
    dispatch msW6 List.head? 2 tW6 =
        (⟨[], [("a", FileState.Clean)]⟩, [(0, "a", FileState.Changed)],
          DispatchOut.ok) ∧
      (⟨[], [("a", FileState.Clean)]⟩ : Tracker).states = [] :=
  ⟨rfl, dispatch_ok_drains msW6 List.head?
    (fun l h => headq_none l h) 2 tW6 ⟨[], [("a", FileState.Clean)]⟩
    [(0, "a", FileState.Changed)] rfl⟩

/-- C2 counterexample: a handler error does not stop `Watch`.  The
only registered handler fails with error 7, and the tick-driven
`Dispatch` does return `fail 7` — but `Watch` discards that result,
continues its loop, processes the next select resolution, and finally
returns the unrelated watcher-channel error 9, not the handler error. -/
theorem watch_swallows_handler_error_cex :
    dispatch msC2 List.head? 2 tC2 =
        (⟨[], [("a", FileState.Clean)]⟩, [(0, "a", FileState.Changed)],
          DispatchOut.fail 7) ∧
      Watch none msC2 [] List.head? 2 statOkFile addOk subEmpty []
          [WEvent.tick, WEvent.fsError 9] tC2 =
        (⟨[], [("a", FileState.Clean)]⟩, some 9) :=
  ⟨rfl, rfl⟩

/-- C2 (amended): the tick branch of `Watch` ignores the result of
`Dispatch()`: whenever the dispatch performed on a tick fails with a
handler error, the `Watch` loop nevertheless continues (the step
reports no exit), and the error value is dropped. -/
theorem watch_tick_discards_dispatch_error (ms : List Matcher)
    (igs : List Pat) (pick : Dirty → Option (String × FileState))
    (dfuel : Nat) (stat : String → Except Err Bool)
    (add : String → Option Err) (subtree : String → List WalkDirEntry)
    (t t1 : Tracker) (tr : List Inv) (e : Err)
    (h : dispatch ms pick dfuel t = (t1, tr, DispatchOut.fail e)) :
    watchStep ms igs pick dfuel stat add subtree WEvent.tick t = (t1, none) := by
  simp only [watchStep, h]

/-- C2 witness: with the failing `a`-handler, a tick step of `Watch`
keeps looping and drops the dispatch error 7. -/
theorem watch_tick_discards_dispatch_error_witness :
    dispatch msC2 List.head? 2 tC2 =
        (⟨[], [("a", FileState.Clean)]⟩, [(0, "a", FileState.Changed)],
          DispatchOut.fail 7) ∧
      watchStep msC2 [] List.head? 2 statOkFile addOk subEmpty WEvent.tick tC2 =
        (⟨[], [("a", FileState.Clean)]⟩, none) :=
  ⟨rfl, watch_tick_discards_dispatch_error msC2 [] List.head? 2 statOkFile
    addOk subEmpty tC2 ⟨[], [("a", FileState.Clean)]⟩
    [(0, "a", FileState.Changed)] 7 rfl⟩

/-- `runHandlers` never grows the dirty set when none of the handlers
it may invoke does: the resulting states are bounded in length by the
input's, and every resulting key was already present. -/
theorem runHandlers_shrink (p : String) (st : FileState) :
    ∀ (E : List (Nat × Matcher)) (t : Tracker),
      (∀ i m, (i, m) ∈ E → ∀ (q : String) (s2 : FileState) (u : Tracker),
        (m.f q s2 u).1.states.length ≤ u.states.length ∧
          ∀ (a : String) (b : FileState), (a, b) ∈ (m.f q s2 u).1.states →
            ∃ c, (a, c) ∈ u.states) →
      (runHandlers E p st t).1.states.length ≤ t.states.length ∧
        ∀ (a : String) (b : FileState),
          (a, b) ∈ (runHandlers E p st t).1.states → ∃ c, (a, c) ∈ t.states := by
  intro E
  induction E with
  | nil =>
      intro t hE
      exact ⟨Nat.le_refl _, fun a b hab => ⟨b, hab⟩⟩
  | cons im rest ih =>
      rcases im with ⟨i, m⟩
      intro t hE
      simp only [runHandlers]
      cases hm : m.pattern p with
      | false =>
          rw [if_neg (by simp [hm])]
          exact ih t (fun j m2 hj => hE j m2 (List.mem_cons_of_mem _ hj))
      | true =>
          rw [if_pos (by simp [hm])]
          have hh := hE i m (List.mem_cons_self _ _) p st t
          rcases hf : m.f p st t with ⟨t1, oe⟩
          rw [hf] at hh
          cases oe with
          | some e => exact ⟨hh.1, hh.2⟩
          | none =>
              have hrest := ih t1 (fun j m2 hj => hE j m2 (List.mem_cons_of_mem _ hj))
              refine ⟨Nat.le_trans hrest.1 hh.1, ?_⟩
              intro a b hab
              obtain ⟨c, hc⟩ := hrest.2 a b hab
              exact hh.2 a c hc

/-- C10: termination of `Dispatch`.  If no handler grows the dirty set
(in particular when no handler performs a non-`Clean` `SetState`), and
every dirty path has a matching handler pattern (the invariant `SetState`
maintains, since it only inserts matched paths), then each iteration
removes the picked path before invoking handlers, the dirty set strictly
shrinks, and a fuel budget of one more than the dirty-set size is never
exhausted: `Dispatch` terminates. -/
theorem dispatch_terminates (ms : List Matcher)
    (pick : Dirty → Option (String × FileState))
    (hmem : ∀ (l : Dirty) e, pick l = some e → e ∈ l)
    (hshrink : ∀ m, m ∈ ms → ∀ (q : String) (s2 : FileState) (u : Tracker),
        (m.f q s2 u).1.states.length ≤ u.states.length ∧
          ∀ (a : String) (b : FileState), (a, b) ∈ (m.f q s2 u).1.states →
            ∃ c, (a, c) ∈ u.states) :
    ∀ (fuel : Nat) (t : Tracker),
      (∀ (q : String) (x : FileState), (q, x) ∈ t.states →
        hasMatcher (patsOf ms) q = true) →
      t.states.length < fuel →
      (dispatch ms pick fuel t).2.2 ≠ DispatchOut.spin := by
  intro fuel
  induction fuel with
  | zero =>
      intro t hinv hlen
      exact absurd hlen (Nat.not_lt_zero _)
  | succ n ih =>
      intro t hinv hlen
      cases hp : pick t.states with
      | none => simp [dispatch, hp]
      | some pr =>
          rcases pr with ⟨path, st⟩
          have hpmem : (path, st) ∈ t.states := hmem _ _ hp
          have hm : hasMatcher (patsOf ms) path = true := hinv path st hpmem
          have hstates1 :
              (SetState (patsOf ms) path FileState.Clean t).states =
                eraseKey t.states path := by
            unfold SetState
            rw [hm]
            simp
          have hE : ∀ i m, (i, m) ∈ ms.enum →
              ∀ (q : String) (s2 : FileState) (u : Tracker),
                (m.f q s2 u).1.states.length ≤ u.states.length ∧
                  ∀ (a : String) (b : FileState),
                    (a, b) ∈ (m.f q s2 u).1.states → ∃ c, (a, c) ∈ u.states :=
            fun i m him => hshrink m (mem_of_mem_enum ms i m him)
          have hsh := runHandlers_shrink path st ms.enum
            (SetState (patsOf ms) path FileState.Clean t) hE
          have h1len :
              (SetState (patsOf ms) path FileState.Clean t).states.length <
                t.states.length := by
            rw [hstates1]
            exact eraseKey_length_lt path t.states st hpmem
          rcases hr : runHandlers ms.enum path st
              (SetState (patsOf ms) path FileState.Clean t) with ⟨t2, trh, res⟩
          rw [hr] at hsh
          obtain ⟨hlen2, hkeys2⟩ := hsh
          have hlen2a : t2.states.length ≤
              (SetState (patsOf ms) path FileState.Clean t).states.length := hlen2
          cases res with
          | some e => simp [dispatch, hp, hr]
          | none =>
              have h2len : t2.states.length < n := by omega
              have hinv2 : ∀ (q : String) (x : FileState), (q, x) ∈ t2.states →
                  hasMatcher (patsOf ms) q = true := by
                intro q x hq
                obtain ⟨c, hc⟩ := hkeys2 q x hq
                have hc2 : (q, c) ∈ eraseKey t.states path := by
                  rw [← hstates1]
                  exact hc
                exact hinv q c (eraseKey_mem _ _ _ hc2)
              have hrec := ih t2 hinv2 h2len
              simp only [dispatch, hp, hr]
              exact hrec

/-- C10 witness: an inert `a`-handler and the dirty set `[a]`; with
fuel 2 the dispatch does not exhaust its fuel. -/
theorem dispatch_terminates_witness :
    (dispatch msW6 List.head? 2 tW6).2.2 ≠ DispatchOut.spin :=
  dispatch_terminates msW6 List.head?
    (fun l e h => headq_mem l e h)
    (by
      intro m hm q s2 u
      simp only [msW6, List.mem_singleton] at hm
      subst hm
      exact ⟨Nat.le_refl _, fun a b hab => ⟨b, hab⟩⟩)
    2 tW6
    (by
      intro q x hq
      simp only [tW6, List.mem_singleton, Prod.mk.injEq] at hq
      rw [hq.1]
      decide)
    (by decide)

end Gw
